import Mathlib

/-!
Shallow embedding of the P2P file-sharing node's transfer engine
(`src/p2p/file_manager.py`, `src/p2p/peer_manager.py`, `src/p2p/protocol.py`,
`src/p2p/node.py`).

Modelling conventions:
* Python `dict` (insertion-ordered, unique keys) is an association list
  `List (K × V)`; `dictGet` is `d.get(k)`, `dictSet` is `d[k] = v`
  (update in place, else append), `dictDel` is `del d[k]`.
* Python `set` of strings is a duplicate-free `List String` in insertion
  order (`setAdd` = `s.add`, `setDiscard` = `s.discard`); only membership
  of these sets matters to the verified claims.  The set of downloaded
  chunk indices is a `Finset ℕ`; where a set of small ints is turned
  into a list (`list(all_chunks - downloaded_chunks)`), CPython's
  hash-table iteration order is modelled by `pySetList`: slot order
  `value % table_size` with the table size following CPython's set
  growth rule — not ascending order.
* File bytes are `List Nat`; `writeAt` models POSIX `seek`+`write` with
  zero fill of any gap past EOF, as used on the sparse temp files.
* SHA-256 is an uninterpreted parameter `H : List Nat → String`
  (hex digest).  Every hashing site of the source receives it explicitly;
  functions whose Python source never hashes do not take it.
* Fallible operations return `× Bool` mirroring the Python return values.
-/

namespace P2P

/-- Python `dict.get`: first (unique) binding of the key. -/
def dictGet {K V : Type} [DecidableEq K] : List (K × V) → K → Option V
  | [], _ => none
  | (k', v) :: rest, k => if k' = k then some v else dictGet rest k

/-- Python `d[k] = v`: replace the binding in place, else append. -/
def dictSet {K V : Type} [DecidableEq K] : List (K × V) → K → V → List (K × V)
  | [], k, v => [(k, v)]
  | (k', v') :: rest, k, v =>
      if k' = k then (k, v) :: rest else (k', v') :: dictSet rest k v

/-- Python `del d[k]`: drop the binding of the key (keys are unique in a
Python dict, so filtering is the same as removing the one binding). -/
def dictDel {K V : Type} [DecidableEq K] (d : List (K × V)) (k : K) :
    List (K × V) :=
  d.filter fun p => p.1 ≠ k

/-- Python `set.add` on a string set kept as a dup-free list. -/
def setAdd (s : List String) (x : String) : List String :=
  if x ∈ s then s else s ++ [x]

/-- Python `set.discard`. -/
def setDiscard (s : List String) (x : String) : List String :=
  s.filter (fun y => y ≠ x)

/-- Bytes written at `offset` into `file`, zero-filling any gap past the
current end of file (POSIX `seek` + `write` on a regular file). -/
def writeAt (file : List Nat) (offset : Nat) (data : List Nat) : List Nat :=
  file.take offset ++ List.replicate (offset - file.length) 0
    ++ data ++ file.drop (offset + data.length)

/-- `FileManager.CHUNK_SIZE = 256 * 1024` (`file_manager.py`). -/
def CHUNK_SIZE : Nat := 256 * 1024

/-- `P2PProtocol.MAX_CHUNK_RETRIES = 5` (`protocol.py`). -/
def MAX_CHUNK_RETRIES : Nat := 5

/-- A metadata entry as stored by `FileManager` (`shared_files` /
`file_metadata` values).  Local records carry `filepath = some _`;
records added by `add_remote_file` carry `filepath = none`. -/
structure FileEntry where
  file_hash : String
  filename : String
  file_size : Nat
  chunk_size : Nat
  total_chunks : Nat
  piece_hashes : List String
  filepath : Option String
deriving DecidableEq

/-- One value of `FileManager.downloading_files` (`start_download`). -/
structure DownloadInfo where
  metadata : FileEntry
  temp_file : List Nat
  temp_path : String
  final_path : String
  downloaded_chunks : Finset Nat
  total_chunks : Nat
deriving DecidableEq

/-- The mutable state of `FileManager` that the claims concern. -/
structure FileManager where
  download_dir : String
  shared_files : List (String × FileEntry)
  downloading_files : List (String × DownloadInfo)
  file_metadata : List (String × FileEntry)
deriving DecidableEq

/-- The four-field summaries returned by `get_available_files`. -/
structure AvailableFile where
  file_hash : String
  filename : String
  file_size : Nat
  total_chunks : Nat
deriving DecidableEq

/-- `FileManager.get_available_files`: one summary per `shared_files`
entry (local and remote records alike). -/
def get_available_files (fm : FileManager) : List AvailableFile :=
  fm.shared_files.map fun p =>
    ⟨p.1, p.2.filename, p.2.file_size, p.2.total_chunks⟩

/-- `FileManager.start_download`: looks up `file_metadata`; on a hit it
(re)creates the temp file (`open(temp_path, "wb")` truncates, then the
seek/write of one zero byte pre-sizes it) and overwrites the
`downloading_files` entry with an empty chunk set.  (For
`file_size = 0` the Python `seek(-1)` raises; the claims only involve
positive sizes, where `writeAt [] (n-1) [0]` is `n` zero bytes.) -/
def start_download (fm : FileManager) (file_hash : String) :
    FileManager × Bool :=
  match dictGet fm.file_metadata file_hash with
  | none => (fm, false)
  | some md =>
      let temp_path := fm.download_dir ++ "/." ++ md.filename ++ ".part"
      let final_path := fm.download_dir ++ "/" ++ md.filename
      let di : DownloadInfo :=
        ⟨md, writeAt [] (md.file_size - 1) [0], temp_path, final_path,
          ∅, md.total_chunks⟩
      ({ fm with downloading_files :=
          dictSet fm.downloading_files file_hash di }, true)

/-- The write performed by `write_chunk` once `download_info` is at hand:
seek to `chunk_index * CHUNK_SIZE`, write the bytes, add the index to the
chunk set.  No hash of `data` is computed and no bound on `chunk_index`
is checked by the source. -/
def writeInto (fm : FileManager) (file_hash : String) (di : DownloadInfo)
    (chunk_index : Nat) (data : List Nat) : FileManager × Bool :=
  let di' : DownloadInfo :=
    { di with
        temp_file := writeAt di.temp_file (chunk_index * CHUNK_SIZE) data
        downloaded_chunks := insert chunk_index di.downloaded_chunks }
  ({ fm with downloading_files :=
      dictSet fm.downloading_files file_hash di' }, true)

/-- `FileManager.write_chunk`: with no download state it first calls
`start_download` (failing only when `file_metadata` has no entry),
then writes unconditionally. -/
def write_chunk (fm : FileManager) (file_hash : String)
    (chunk_index : Nat) (data : List Nat) : FileManager × Bool :=
  match dictGet fm.downloading_files file_hash with
  | some di => writeInto fm file_hash di chunk_index data
  | none =>
      let started := start_download fm file_hash
      if started.2 then
        match dictGet started.1.downloading_files file_hash with
        | some di => writeInto started.1 file_hash di chunk_index data
        | none => (started.1, false)
      else (fm, false)

/-- `FileManager.finalize_download`: recompute the whole-file digest over
the temp file; on a match rename temp to final and promote the metadata
(whose dict object is shared with `file_metadata`) to a local record; on
a mismatch only log, leaving all state and the temp file in place.  The
`Bool` records whether the rename happened.  (Python indexes
`downloading_files[file_hash]` directly and would raise on a missing
key; its only caller guards that, and the `none` branch here is inert.) -/
def finalize_download (H : List Nat → String) (fm : FileManager)
    (file_hash : String) : FileManager × Bool :=
  match dictGet fm.downloading_files file_hash with
  | none => (fm, false)
  | some di =>
      if H di.temp_file = file_hash then
        let entry := { di.metadata with filepath := some di.final_path }
        ({ fm with
            shared_files := dictSet fm.shared_files file_hash entry
            file_metadata := dictSet fm.file_metadata file_hash entry
            downloading_files := dictDel fm.downloading_files file_hash },
          true)
      else (fm, false)

/-- `FileManager.is_download_complete`: compares the cardinality of the
chunk set with `total_chunks`; on equality it runs `finalize_download`
and returns true regardless of the finalize outcome. -/
def is_download_complete (H : List Nat → String) (fm : FileManager)
    (file_hash : String) : FileManager × Bool :=
  match dictGet fm.downloading_files file_hash with
  | none => (fm, false)
  | some di =>
      if di.downloaded_chunks.card = di.total_chunks then
        ((finalize_download H fm file_hash).1, true)
      else (fm, false)

/-- Smallest power of two strictly greater than `m`, starting from
CPython's `PySet_MINSIZE = 8` (`set_table_resize`'s
`while (newsize <= minused) newsize <<= 1`).  Fuel-driven so the
recursion is structural; `m` doublings always suffice. -/
def pow2AboveAux (m : Nat) : Nat → Nat → Nat
  | 0, acc => acc
  | fuel + 1, acc => if m < acc then acc else pow2AboveAux m fuel (acc * 2)

def pow2Above (m : Nat) : Nat := pow2AboveAux m m 8

/-- The hash-table size of a fresh CPython set after `n` insertions of
distinct keys (`set_add_entry`: after an insert, resize when
`fill * 5 >= mask * 3`, to the next power of two above `used * 4` —
`used * 2` beyond 50000 entries). -/
def pySetTableSizeAux : Nat → Nat → Nat → Nat
  | 0, size, _ => size
  | n + 1, size, used =>
      let used' := used + 1
      let size' :=
        if (size - 1) * 3 ≤ used' * 5 then
          pow2Above (used' * (if 50000 < used' then 2 else 4))
        else size
      pySetTableSizeAux n size' used'

def pySetTableSize (n : Nat) : Nat := pySetTableSizeAux n 8 0

/-- CPython's `list(s)` for a set of small nonnegative ints whose
elements are given in insertion order: elements are emitted in
hash-table slot order, the slot of a small int being
`value % table_size` (ints hash to themselves).  Realised as a stable
sort by slot, which reproduces CPython's iteration exactly for
collision-free tables and lists slot-colliding elements at their home
slot in insertion order rather than along CPython's probe sequence (no
claim depends on a colliding state). -/
def pySetList (l : List Nat) : List Nat :=
  let size := pySetTableSize l.length
  l.insertionSort (fun a b => a % size ≤ b % size)

/-- `FileManager.get_missing_chunks`.  The in-progress branch is
`list(all_chunks - downloaded_chunks)`: the difference iterates
`all_chunks = set(range(total_chunks))` (ascending — a range-set is
collision-free) and inserts the indices outside the chunk set into a
fresh set, so its elements in insertion order are the ascending
complement, listed by `pySetList` in CPython's slot order — not
re-sorted.  The unstarted branch is Python's
`list(range(total_chunks))`, ascending by construction. -/
def get_missing_chunks (fm : FileManager) (file_hash : String) : List Nat :=
  match dictGet fm.downloading_files file_hash with
  | some di =>
      pySetList ((List.range di.total_chunks).filter
        (fun i => i ∉ di.downloaded_chunks))
  | none =>
      match dictGet fm.file_metadata file_hash with
      | some md => List.range md.total_chunks
      | none => []

/-- The `FileMetadata` dataclass of `protocol.py` (wire manifest). -/
structure FileMetadataMsg where
  file_hash : String
  filename : String
  file_size : Nat
  total_chunks : Nat
  chunk_size : Nat
  piece_hashes : List String
deriving DecidableEq

/-- `FileManager.add_remote_file` on a `FileMetadata` dataclass: build an
entry (no `filepath` key) and insert it into both `shared_files` and
`file_metadata` whenever the hash is truthy and not already shared.
No field of the manifest is validated. -/
def add_remote_file (fm : FileManager) (m : FileMetadataMsg) : FileManager :=
  let entry : FileEntry :=
    ⟨m.file_hash, m.filename, m.file_size, m.chunk_size, m.total_chunks,
      m.piece_hashes, none⟩
  if m.file_hash ≠ "" ∧ (dictGet fm.shared_files m.file_hash).isNone then
    { fm with
        shared_files := dictSet fm.shared_files m.file_hash entry
        file_metadata := dictSet fm.file_metadata m.file_hash entry }
  else fm

/-- The per-connection retry bookkeeping of a `P2PProtocol` instance:
`retry_counts` maps a `(file_hash, chunk_index)` pair (the Python key
string `"hash:index"`) to the number of `request_chunk` calls seen. -/
structure Session where
  retry_counts : List ((String × Nat) × Nat)
deriving DecidableEq

/-- `P2PProtocol.request_chunk`: increment the pair's count first; a
`chunk_request` goes on the wire only while the incremented count has
not passed `MAX_CHUNK_RETRIES`.  The `Bool` records whether a message
was sent; the Python function returns `None` either way. -/
def request_chunk (s : Session) (file_hash : String) (chunk_index : Nat) :
    Session × Bool :=
  let c := ((dictGet s.retry_counts (file_hash, chunk_index)).getD 0) + 1
  (⟨dictSet s.retry_counts (file_hash, chunk_index) c⟩,
    decide (c ≤ MAX_CHUNK_RETRIES))

/-- `n` successive `request_chunk` calls for one pair on one session,
returning the final session and how many requests were actually sent. -/
def repeatReq (file_hash : String) (chunk_index : Nat) :
    Nat → Session → Session × Nat
  | 0, s => (s, 0)
  | n + 1, s =>
      let r := request_chunk s file_hash chunk_index
      let rest := repeatReq file_hash chunk_index n r.1
      (rest.1, (if r.2 then 1 else 0) + rest.2)

/-- The state of `PeerManager`.  `peers` maps a peer id to its live
protocol instance (of which only the retry state matters here); the two
availability maps and `peer_files` are the defaultdicts of the source. -/
structure PeerManager where
  peers : List (String × Session)
  file_availability : List (String × List String)
  chunk_availability : List ((String × Nat) × List String)
  peer_files : List (String × List String)
deriving DecidableEq

/-- `PeerManager.add_peer`. -/
def add_peer (pm : PeerManager) (peer_id : String) (s : Session) :
    PeerManager :=
  { pm with peers := dictSet pm.peers peer_id s }

/-- `PeerManager.add_peer_file`: record in `peer_files[peer_id]` and in
`file_availability[file_hash]` (defaultdict semantics). -/
def add_peer_file (pm : PeerManager) (peer_id file_hash : String) :
    PeerManager :=
  { pm with
      peer_files := dictSet pm.peer_files peer_id
        (setAdd ((dictGet pm.peer_files peer_id).getD []) file_hash)
      file_availability := dictSet pm.file_availability file_hash
        (setAdd ((dictGet pm.file_availability file_hash).getD []) peer_id) }

/-- `PeerManager.add_peer_chunk`. -/
def add_peer_chunk (pm : PeerManager) (peer_id file_hash : String)
    (chunk_index : Nat) : PeerManager :=
  { pm with
      chunk_availability := dictSet pm.chunk_availability
        (file_hash, chunk_index)
        (setAdd ((dictGet pm.chunk_availability
          (file_hash, chunk_index)).getD []) peer_id) }

/-- `PeerManager.remove_peer`: guarded on membership in `peers`; discards
the peer from `file_availability[h]` for each `h` in `peer_files[peer]`,
then deletes the `peers` and `peer_files` entries.  The source never
touches `chunk_availability` here. -/
def remove_peer (pm : PeerManager) (peer_id : String) : PeerManager :=
  if (dictGet pm.peers peer_id).isSome then
    { pm with
        peers := dictDel pm.peers peer_id
        file_availability :=
          ((dictGet pm.peer_files peer_id).getD []).foldl
            (fun fa h =>
              dictSet fa h (setDiscard ((dictGet fa h).getD []) peer_id))
            pm.file_availability
        peer_files := dictDel pm.peer_files peer_id }
  else pm

/-- `PeerManager.get_peers_with_chunk`. -/
def get_peers_with_chunk (pm : PeerManager) (file_hash : String)
    (chunk_index : Nat) : List String :=
  (dictGet pm.chunk_availability (file_hash, chunk_index)).getD []

/-- `PeerManager.get_peers_with_file`. -/
def get_peers_with_file (pm : PeerManager) (file_hash : String) :
    List String :=
  (dictGet pm.file_availability file_hash).getD []

/-- `PeerManager.get_best_peer_for_chunk`: chunk-level holders first,
falling back to file-level holders; first listed peer wins. -/
def get_best_peer_for_chunk (pm : PeerManager) (file_hash : String)
    (chunk_index : Nat) : Option String :=
  let ps := get_peers_with_chunk pm file_hash chunk_index
  let ps := if ps.isEmpty then get_peers_with_file pm file_hash else ps
  ps.head?

/-- One advertised file of a `handshake` payload.  `P2PProtocol.
handle_handshake` requires the first four keys and defaults the last
two, so they are optional here. -/
structure WireFile where
  file_hash : Option String
  filename : Option String
  file_size : Option Nat
  total_chunks : Option Nat
  chunk_size : Option Nat
  piece_hashes : Option (List String)
deriving DecidableEq

/-- Processing of a single advertised manifest by `handle_handshake` (the
same steps serve `handle_file_announce`, whose dataclass defaults agree
with the `setdefault` calls): when the four required fields are present,
record the sender in the availability index and register the manifest;
otherwise skip the entry. -/
def processWireFile (pid : String) (st : PeerManager × FileManager)
    (f : WireFile) : PeerManager × FileManager :=
  match f.file_hash, f.filename, f.file_size, f.total_chunks with
  | some fh, some fn, some fs, some tc =>
      let m : FileMetadataMsg :=
        ⟨fh, fn, fs, tc, f.chunk_size.getD CHUNK_SIZE,
          f.piece_hashes.getD []⟩
      (add_peer_file st.1 pid fh, add_remote_file st.2 m)
  | _, _, _, _ => st

/-- `P2PProtocol.handle_handshake`: fold `processWireFile` over the
advertised list. -/
def handle_handshake (pm : PeerManager) (fm : FileManager) (pid : String)
    (files : List WireFile) : PeerManager × FileManager :=
  files.foldl (processWireFile pid) (pm, fm)

/-- `P2PProtocol.handle_file_chunk` after base64 decoding: drop empty
payloads (`if not raw`), drop the message when `SHA-256(data)` differs
from the message's own `chunk_hash` field, otherwise `write_chunk` and
run the completion check. -/
def handle_file_chunk (H : List Nat → String) (fm : FileManager)
    (file_hash : String) (chunk_index : Nat) (data : List Nat)
    (chunk_hash : String) : FileManager :=
  if data = [] then fm
  else if H data ≠ chunk_hash then fm
  else
    let fm1 := (write_chunk fm file_hash chunk_index data).1
    (is_download_complete H fm1 file_hash).1

/-- Outcome of one pass of the `P2PNode._download_chunks` loop body:
`complete` breaks the loop, `wait5` is the 5 s no-peer sleep, `wait500`
the 500 ms sleep.  The loop has no other exit. -/
inductive PollResult
  | complete
  | wait5
  | wait500
deriving DecidableEq

/-- The request-issuing loop of one `P2PNode._download_chunks`
iteration: fold over the first ten missing chunks, routing each through
`get_best_peer_for_chunk` and the peer's protocol.  Returns the updated
peer manager, the source's `requested_count` (incremented for every
`request_chunk` call that returns normally — calls the retry cap
silenced included) and the number of `chunk_request` messages actually
sent. -/
def download_poll_requests (fm : FileManager) (pm : PeerManager)
    (file_hash : String) : PeerManager × Nat × Nat :=
  ((get_missing_chunks fm file_hash).take 10).foldl
    (fun (st : PeerManager × Nat × Nat) idx =>
      match get_best_peer_for_chunk st.1 file_hash idx with
      | none => st
      | some pid =>
          match dictGet st.1.peers pid with
          | none => st
          | some s =>
              let r := request_chunk s file_hash idx
              ({ st.1 with peers := dictSet st.1.peers pid r.1 },
                st.2.1 + 1, st.2.2 + (if r.2 then 1 else 0)))
    (pm, 0, 0)

/-- One iteration of `P2PNode._download_chunks`: break only on an empty
missing list (`complete`); otherwise issue requests through
`download_poll_requests` and sleep 5 s when nothing was requested, else
500 ms. -/
def download_chunks_step (fm : FileManager) (pm : PeerManager)
    (file_hash : String) : PeerManager × Nat × Nat × PollResult :=
  let missing := get_missing_chunks fm file_hash
  if missing.isEmpty then (pm, 0, 0, PollResult.complete)
  else
    let st := download_poll_requests fm pm file_hash
    (st.1, st.2.1, st.2.2,
      if st.2.1 = 0 then PollResult.wait5 else PollResult.wait500)

/-- The chunk set of the download state for a digest (∅ when none). -/
def downloadedChunksOf (fm : FileManager) (file_hash : String) :
    Finset Nat :=
  match dictGet fm.downloading_files file_hash with
  | some di => di.downloaded_chunks
  | none => ∅

/-- The temp-file bytes of the download state for a digest. -/
def tempFileOf (fm : FileManager) (file_hash : String) : List Nat :=
  match dictGet fm.downloading_files file_hash with
  | some di => di.temp_file
  | none => []

/-- The `total_chunks` of the download state for a digest (0 when none). -/
def downloadTotalOf (fm : FileManager) (file_hash : String) : Nat :=
  match dictGet fm.downloading_files file_hash with
  | some di => di.total_chunks
  | none => 0

/-! ### Dictionary and set lemmas -/

theorem dictGet_dictSet_self {K V : Type} [DecidableEq K]
    (d : List (K × V)) (k : K) (v : V) :
    dictGet (dictSet d k v) k = some v := by
  induction d with
  | nil => simp [dictGet, dictSet]
  | cons p rest ih =>
      obtain ⟨k1, v1⟩ := p
      by_cases h : k1 = k
      · simp [dictSet, h, dictGet]
      · simp [dictSet, h, dictGet, ih]

theorem dictGet_dictSet_ne {K V : Type} [DecidableEq K]
    (d : List (K × V)) (k k' : K) (v : V) (h : k ≠ k') :
    dictGet (dictSet d k v) k' = dictGet d k' := by
  induction d with
  | nil => simp [dictGet, dictSet, h]
  | cons p rest ih =>
      obtain ⟨k1, v1⟩ := p
      by_cases h0 : k1 = k
      · subst h0
        simp [dictSet, dictGet, h]
      · by_cases h1 : k1 = k'
        · subst h1
          simp [dictSet, h0, dictGet]
        · simp [dictSet, h0, dictGet, h1, ih]

theorem dictGet_dictDel_self {K V : Type} [DecidableEq K]
    (d : List (K × V)) (k : K) :
    dictGet (dictDel d k) k = none := by
  induction d with
  | nil => simp [dictGet, dictDel]
  | cons p rest ih =>
      by_cases h : p.1 = k
      · simpa [dictDel, h] using ih
      · simpa [dictDel, List.filter_cons, h, dictGet] using ih

theorem mem_dictSet_self {K V : Type} [DecidableEq K]
    (d : List (K × V)) (k : K) (v : V) :
    (k, v) ∈ dictSet d k v := by
  induction d with
  | nil => simp [dictSet]
  | cons p rest ih =>
      obtain ⟨k1, v1⟩ := p
      by_cases h : k1 = k
      · simp [dictSet, h]
      · simp only [dictSet, if_neg h]
        exact List.mem_cons_of_mem _ ih

theorem mem_setAdd_self (s : List String) (x : String) : x ∈ setAdd s x := by
  unfold setAdd
  by_cases h : x ∈ s
  · simp [h]
  · simp [h]

theorem not_mem_setDiscard (s : List String) (x : String) :
    x ∉ setDiscard s x := by
  simp [setDiscard]

/-- Peeling `remove_peer`'s cleanup fold: a peer found in a set of the
folded `file_availability` was already there before the fold, under a
key the fold never visited. -/
theorem foldl_discard_get (pid : String) :
    ∀ (hashes : List String) (fa : List (String × List String))
      (fh : String) (l : List String),
      dictGet (hashes.foldl (fun fa h =>
          dictSet fa h (setDiscard ((dictGet fa h).getD []) pid)) fa) fh
        = some l →
      pid ∈ l → fh ∉ hashes ∧ dictGet fa fh = some l := by
  intro hashes
  induction hashes with
  | nil =>
      intro fa fh l hget hmem
      exact ⟨List.not_mem_nil _, hget⟩
  | cons a hs ih =>
      intro fa fh l hget hmem
      rw [List.foldl_cons] at hget
      obtain ⟨hnot, hget'⟩ := ih _ fh l hget hmem
      by_cases hfa : a = fh
      · subst hfa
        rw [dictGet_dictSet_self] at hget'
        obtain rfl : setDiscard ((dictGet fa a).getD []) pid = l :=
          Option.some.injEq .. ▸ hget'
        exact absurd hmem (not_mem_setDiscard _ _)
      · rw [dictGet_dictSet_ne _ _ _ _ hfa] at hget'
        refine ⟨fun hmem2 => ?_, hget'⟩
        rcases List.mem_cons.mp hmem2 with h1 | h1
        · exact hfa h1.symm
        · exact hnot h1

/-! ### Concrete states used by the counterexamples and witnesses -/

/-- A one-chunk, one-byte manifest whose single piece hash is `"b"`. -/
def mdH : FileEntry := ⟨"h", "f", 1, CHUNK_SIZE, 1, ["b"], none⟩

/-- A `FileManager` that knows `mdH`'s metadata but holds no download
state and shares nothing. -/
def fmH : FileManager := ⟨"./downloads", [], [], [("h", mdH)]⟩

/-- An empty `FileManager`. -/
def fm0 : FileManager := ⟨"./downloads", [], [], []⟩

/-- The download state `start_download` creates for `mdH`. -/
def diH0 : DownloadInfo :=
  ⟨mdH, [0], "./downloads/.f.part", "./downloads/f", ∅, 1⟩

/-- `fmH` after `start_download "h"`. -/
def fmHd : FileManager := (start_download fmH "h").1

/-- `fmHd` after `write_chunk "h" 0 [7]` (in-range write). -/
def fmW0 : FileManager := (write_chunk fmHd "h" 0 [7]).1

/-- `fmHd` after `write_chunk "h" 5 [9]` (out-of-range write: the
manifest has a single chunk). -/
def fm56 : FileManager := (write_chunk fmHd "h" 5 [9]).1

/-- An empty `PeerManager`. -/
def pm0 : PeerManager := ⟨[], [], [], []⟩

/-- A peer manager where live peer `P` advertises file `h`. -/
def pmW : PeerManager := ⟨[("P", ⟨[]⟩)], [("h", ["P"])], [], [("P", ["h"])]⟩

/-- Peer `P` attached and recorded as holding chunk 0 of `h` (a `have`
message path: `add_peer_chunk` only). -/
def pmC3 : PeerManager := add_peer_chunk (add_peer pm0 "P" ⟨[]⟩) "P" "h" 0

/-- A session whose retry count for `("h", 0)` is exhausted. -/
def sE : Session := ⟨[(("h", 0), 5)]⟩

/-- Peer `P` live with the exhausted session `sE`, advertising `h`. -/
def pmC8 : PeerManager := ⟨[("P", sE)], [("h", ["P"])], [], [("P", ["h"])]⟩

/-- A 100-chunk manifest (fields unvalidated by the code — `file_size`
1 keeps the modelled temp file tiny). -/
def md100 : FileEntry := ⟨"H", "g", 1, CHUNK_SIZE, 100, [], none⟩

/-- Download state for `md100` with every chunk but 2 and 97 already
recorded (chunks arrive out of order in normal operation). -/
def di100 : DownloadInfo :=
  ⟨md100, [0], "./downloads/.g.part", "./downloads/g",
    ((Finset.range 100).erase 2).erase 97, 100⟩

/-- A `FileManager` holding the `di100` download in progress. -/
def fmC7 : FileManager := ⟨"./downloads", [], [("H", di100)], [("H", md100)]⟩

/-! ### Claim C1 -/

/-- Claim C1 counterexample.  The claim has `write_chunk` verifying
`SHA-256(bytes)` against the manifest's per-chunk digest and failing for
a digest with no download state.  Both parts fail on the source: with
metadata known but no download state, `write_chunk` silently starts the
download and returns success (first conjunct); and it accepts bytes and
marks the index present although the hash model disagrees with the
stored piece digest — the digest is never consulted (second conjunct,
with the stored piece digest `"b"` and a hash function constantly
`"a"`). -/
theorem write_chunk_no_verify_cex :
    (¬ ∀ (fm : FileManager) (fh : String) (idx : Nat) (data : List Nat),
        dictGet fm.downloading_files fh = none →
        (write_chunk fm fh idx data).2 = false) ∧
    (¬ ∀ (Hf : List Nat → String) (fm : FileManager) (fh : String)
        (idx : Nat) (data : List Nat) (di : DownloadInfo),
        (write_chunk fm fh idx data).2 = true →
        dictGet (write_chunk fm fh idx data).1.downloading_files fh
          = some di →
        idx ∈ di.downloaded_chunks →
        Hf data = di.metadata.piece_hashes.getD idx "") := by
  constructor
  · intro hclaim
    have h1 := hclaim fmH "h" 0 [7] (by decide)
    exact absurd h1 (by decide)
  · intro hclaim
    have h2 := hclaim (fun _ => "a") fmH "h" 0 [7]
      ⟨mdH, [7], "./downloads/.f.part", "./downloads/f", {0}, 1⟩
      (by decide) (by decide) (by decide)
    exact absurd h2 (by decide)

/-- Claim C1 (amended): `write_chunk` performs no verification against
the manifest's piece hashes — for an in-progress download it writes any
bytes at `index * CHUNK_SIZE` and adds the index, returning success; for
a digest with no download state it auto-starts the download and fails
only when no metadata is registered; the only chunk-hash check is in
`handle_file_chunk`, which compares the hash of the data against the
message's own `chunk_hash` field and on a mismatch discards the message
without touching the `FileManager`. -/
theorem write_chunk_behavior :
    (∀ (fm : FileManager) (fh : String) (di : DownloadInfo) (idx : Nat)
        (data : List Nat),
        dictGet fm.downloading_files fh = some di →
        (write_chunk fm fh idx data).2 = true ∧
        dictGet (write_chunk fm fh idx data).1.downloading_files fh =
          some { di with
                   temp_file := writeAt di.temp_file (idx * CHUNK_SIZE) data
                   downloaded_chunks := insert idx di.downloaded_chunks }) ∧
    (∀ (fm : FileManager) (fh : String) (idx : Nat) (data : List Nat),
        dictGet fm.downloading_files fh = none →
        dictGet fm.file_metadata fh = none →
        write_chunk fm fh idx data = (fm, false)) ∧
    (∀ (fm : FileManager) (fh : String) (idx : Nat) (data : List Nat)
        (md : FileEntry),
        dictGet fm.downloading_files fh = none →
        dictGet fm.file_metadata fh = some md →
        (write_chunk fm fh idx data).2 = true) ∧
    (∀ (Hf : List Nat → String) (fm : FileManager) (fh : String)
        (idx : Nat) (data : List Nat) (ch : String),
        data ≠ [] → Hf data ≠ ch →
        handle_file_chunk Hf fm fh idx data ch = fm) := by
  refine ⟨?_, ?_, ?_, ?_⟩
  · intro fm fh di idx data hdi
    unfold write_chunk
    rw [hdi]
    unfold writeInto
    exact ⟨rfl, dictGet_dictSet_self ..⟩
  · intro fm fh idx data h1 h2
    unfold write_chunk
    rw [h1]
    unfold start_download
    rw [h2]
    rfl
  · intro fm fh idx data md h1 h2
    unfold write_chunk
    rw [h1]
    unfold start_download
    rw [h2]
    simp [dictGet_dictSet_self, writeInto]
  · intro Hf fm fh idx data ch hd hne
    simp [handle_file_chunk, hd, hne]

/-- Witness for the amended C1 at concrete inputs: an in-progress write
of unstudied bytes succeeds; an unknown digest fails; a known-metadata
digest auto-starts; a mismatching `file_chunk` message is dropped. -/
theorem write_chunk_behavior_witness :
    ((write_chunk fmHd "h" 0 [7]).2 = true ∧
      dictGet (write_chunk fmHd "h" 0 [7]).1.downloading_files "h" =
        some { diH0 with
                 temp_file := writeAt diH0.temp_file (0 * CHUNK_SIZE) [7]
                 downloaded_chunks := insert 0 diH0.downloaded_chunks }) ∧
    write_chunk fm0 "zz" 0 [7] = (fm0, false) ∧
    (write_chunk fmH "h" 0 [7]).2 = true ∧
    handle_file_chunk (fun _ => "a") fmH "h" 0 [7] "b" = fmH :=
  ⟨write_chunk_behavior.1 fmHd "h" diH0 0 [7] (by decide),
   write_chunk_behavior.2.1 fm0 "zz" 0 [7] (by decide) (by decide),
   write_chunk_behavior.2.2.1 fmH "h" 0 [7] mdH (by decide) (by decide),
   write_chunk_behavior.2.2.2 (fun _ => "a") fmH "h" 0 [7] "b"
     (by decide) (by decide)⟩

/-! ### Claim C2 -/

/-- Claim C2: for a download state present under its manifest digest,
`finalize_download` performs the rename exactly when the digest
recomputed over the temp file equals the manifest's file digest; on a
mismatch the whole state — temp file included — is left untouched, and
on a match the download entry is removed and a local record pointing at
the final path is registered. -/
theorem finalize_download_rename_iff (Hf : List Nat → String)
    (fm : FileManager) (fh : String) (di : DownloadInfo)
    (hdi : dictGet fm.downloading_files fh = some di)
    (hkey : di.metadata.file_hash = fh) :
    ((finalize_download Hf fm fh).2 = true ↔
      Hf di.temp_file = di.metadata.file_hash) ∧
    (Hf di.temp_file ≠ di.metadata.file_hash →
      (finalize_download Hf fm fh).1 = fm) ∧
    (Hf di.temp_file = di.metadata.file_hash →
      dictGet (finalize_download Hf fm fh).1.downloading_files fh = none ∧
      dictGet (finalize_download Hf fm fh).1.shared_files fh =
        some { di.metadata with filepath := some di.final_path }) := by
  subst hkey
  unfold finalize_download
  rw [hdi]
  by_cases hcmp : Hf di.temp_file = di.metadata.file_hash
  · simp only [if_pos hcmp]
    refine ⟨by simp [hcmp], fun hne => absurd hcmp hne, fun _ => ?_⟩
    exact ⟨dictGet_dictDel_self .., dictGet_dictSet_self ..⟩
  · simp only [if_neg hcmp]
    refine ⟨?_, ?_, ?_⟩
    · simp [hcmp]
    · intro _
      trivial
    · intro heq
      exact absurd heq hcmp

/-- Witness for C2 at a concrete matching state: hash model constantly
`"h"`, download state `diH0` registered under `"h"`. -/
theorem finalize_download_rename_iff_witness :
    (((finalize_download (fun _ => "h") fmHd "h").2 = true ↔
        (fun _ : List Nat => "h") diH0.temp_file = diH0.metadata.file_hash) ∧
      ((fun _ : List Nat => "h") diH0.temp_file ≠ diH0.metadata.file_hash →
        (finalize_download (fun _ => "h") fmHd "h").1 = fmHd) ∧
      ((fun _ : List Nat => "h") diH0.temp_file = diH0.metadata.file_hash →
        dictGet (finalize_download (fun _ => "h") fmHd "h").1.downloading_files
          "h" = none ∧
        dictGet (finalize_download (fun _ => "h") fmHd "h").1.shared_files
          "h" = some { diH0.metadata with filepath := some diH0.final_path })) :=
  finalize_download_rename_iff (fun _ => "h") fmHd "h" diH0
    (by decide) (by decide)

/-! ### Claim C3 -/

/-- Claim C3 counterexample: `remove_peer` never touches
`chunk_availability`, so a detached peer recorded there by a `have`
message is still listed and can still be returned by
`get_best_peer_for_chunk`.  Concretely: peer `P` is attached, recorded
for chunk 0 of `h` via `add_peer_chunk`, then detached; it remains in
the chunk set and is selected as the source. -/
theorem remove_peer_chunk_availability_cex :
    ¬ ∀ (pm : PeerManager) (pid fh : String) (idx : Nat),
        (dictGet pm.peers pid).isSome = true →
        pid ∉ (dictGet (remove_peer pm pid).file_availability fh).getD [] ∧
        pid ∉ (dictGet (remove_peer pm pid).chunk_availability
          (fh, idx)).getD [] ∧
        get_best_peer_for_chunk (remove_peer pm pid) fh idx ≠ some pid := by
  intro hclaim
  have h := hclaim pmC3 "P" "h" 0 (by decide)
  exact h.2.1 (by decide)

/-- Claim C3 (amended): after `remove_peer` of a live peer, the peer is
gone from the session table and appears in no `file_availability` set —
given the invariant, maintained by `add_peer_file` (the only writer of
both maps), that a peer found in a file's availability set has that file
in its `peer_files` entry.  The source however leaves
`chunk_availability` untouched, so the detached peer can still be
selected from there (see the counterexample). -/
theorem remove_peer_file_availability_clean (pm : PeerManager)
    (pid fh : String) (l : List String)
    (hlive : (dictGet pm.peers pid).isSome = true)
    (hinv : ∀ fh' l', dictGet pm.file_availability fh' = some l' →
        pid ∈ l' → fh' ∈ (dictGet pm.peer_files pid).getD [])
    (hget : dictGet (remove_peer pm pid).file_availability fh = some l) :
    pid ∉ l ∧ dictGet (remove_peer pm pid).peers pid = none := by
  unfold remove_peer at hget ⊢
  rw [if_pos hlive] at hget ⊢
  constructor
  · intro hmem
    obtain ⟨hnot, hfa⟩ := foldl_discard_get pid _ _ fh l hget hmem
    exact hnot (hinv fh l hfa hmem)
  · exact dictGet_dictDel_self ..

/-- Witness for the amended C3: `P` advertised `h`, is detached, and is
gone from both the session table and `h`'s availability set. -/
theorem remove_peer_file_availability_clean_witness :
    "P" ∉ ([] : List String) ∧
    dictGet (remove_peer pmW "P").peers "P" = none :=
  remove_peer_file_availability_clean pmW "P" "h" [] (by decide)
    (by
      intro fh' l' h1 h2
      by_cases hc : "h" = fh'
      · subst hc
        decide
      · simp [pmW, dictGet, hc] at h1)
    (by decide)

/-! ### Claim C4 -/

/-- `processWireFile` on a payload with all four required keys. -/
theorem processWireFile_eq (pid : String) (st : PeerManager × FileManager)
    (fh fn : String) (fs tc : Nat) (cs : Option Nat)
    (ph : Option (List String)) :
    processWireFile pid st ⟨some fh, some fn, some fs, some tc, cs, ph⟩ =
      (add_peer_file st.1 pid fh,
        add_remote_file st.2 ⟨fh, fn, fs, tc, cs.getD CHUNK_SIZE,
          ph.getD []⟩) := rfl

/-- `add_remote_file` on a fresh truthy digest inserts into both
registries. -/
theorem add_remote_file_insert (fm : FileManager) (m : FileMetadataMsg)
    (hfh : m.file_hash ≠ "")
    (hnew : dictGet fm.shared_files m.file_hash = none) :
    add_remote_file fm m = { fm with
      shared_files := dictSet fm.shared_files m.file_hash
        ⟨m.file_hash, m.filename, m.file_size, m.chunk_size,
          m.total_chunks, m.piece_hashes, none⟩
      file_metadata := dictSet fm.file_metadata m.file_hash
        ⟨m.file_hash, m.filename, m.file_size, m.chunk_size,
          m.total_chunks, m.piece_hashes, none⟩ } := by
  have hc : m.file_hash ≠ "" ∧
      (dictGet fm.shared_files m.file_hash).isNone = true := by
    refine ⟨hfh, ?_⟩
    rw [hnew]
    rfl
  unfold add_remote_file
  rw [if_pos hc]

/-- Claim C4 counterexample: `handle_handshake` checks only the presence
of the four required keys.  A manifest with `total_chunks = 99`, an
empty `piece_hashes` list, `file_size = 1` and a path separator in its
filename is inserted into the registry unchanged, violating every one of
the claimed validation conditions. -/
theorem add_remote_file_no_validation_cex :
    ¬ ∀ (pm : PeerManager) (fm : FileManager) (pid : String)
        (files : List WireFile) (fh : String) (e : FileEntry),
        dictGet (handle_handshake pm fm pid files).2.file_metadata fh
          = some e →
        dictGet fm.file_metadata fh = none →
        e.piece_hashes.length = e.total_chunks ∧
        e.total_chunks = (e.file_size + e.chunk_size - 1) / e.chunk_size ∧
        e.chunk_size = CHUNK_SIZE ∧
        e.filename ≠ "" ∧
        e.filename.contains '/' = false := by
  intro hclaim
  have h := hclaim pm0 fm0 "P"
      [⟨some "h", some "a/b", some 1, some 99, none, none⟩] "h"
      ⟨"h", "a/b", 1, CHUNK_SIZE, 99, [], none⟩ (by decide) (by decide)
  exact absurd h.1 (by decide)

/-- Claim C4 (amended): registration from a handshake applies no
validation beyond the presence of `file_hash`, `filename`, `file_size`
and `total_chunks` in the payload, a truthy digest, and the digest not
already being in `shared_files` (`chunk_size` and `piece_hashes` merely
default when absent).  Whatever the arithmetic relations between the
fields and whatever the filename, the manifest is inserted as-is into
both registries and the sender is recorded as holding the file.  The
`file_announce` path registers through the same two calls. -/
theorem handle_handshake_inserts_unvalidated (pm : PeerManager)
    (fm : FileManager) (pid fh fn : String) (fs tc : Nat)
    (cs : Option Nat) (ph : Option (List String))
    (hfh : fh ≠ "")
    (hnew : dictGet fm.shared_files fh = none) :
    dictGet (handle_handshake pm fm pid
        [⟨some fh, some fn, some fs, some tc, cs, ph⟩]).2.shared_files fh =
      some ⟨fh, fn, fs, cs.getD CHUNK_SIZE, tc, ph.getD [], none⟩ ∧
    dictGet (handle_handshake pm fm pid
        [⟨some fh, some fn, some fs, some tc, cs, ph⟩]).2.file_metadata fh =
      some ⟨fh, fn, fs, cs.getD CHUNK_SIZE, tc, ph.getD [], none⟩ ∧
    pid ∈ (dictGet (handle_handshake pm fm pid
        [⟨some fh, some fn, some fs, some tc, cs, ph⟩]).1.file_availability
        fh).getD [] := by
  unfold handle_handshake
  rw [List.foldl_cons, List.foldl_nil, processWireFile_eq,
    add_remote_file_insert _ _ hfh hnew]
  unfold add_peer_file
  refine ⟨dictGet_dictSet_self .., dictGet_dictSet_self .., ?_⟩
  rw [dictGet_dictSet_self]
  exact mem_setAdd_self ..

/-- Witness for the amended C4 at a concrete fresh manifest. -/
theorem handle_handshake_inserts_unvalidated_witness :
    dictGet (handle_handshake pm0 fm0 "P"
        [⟨some "h", some "f2", some 1, some 2, none, none⟩]).2.shared_files
        "h" =
      some ⟨"h", "f2", 1, (none : Option Nat).getD CHUNK_SIZE, 2,
        (none : Option (List String)).getD [], none⟩ ∧
    dictGet (handle_handshake pm0 fm0 "P"
        [⟨some "h", some "f2", some 1, some 2, none, none⟩]).2.file_metadata
        "h" =
      some ⟨"h", "f2", 1, (none : Option Nat).getD CHUNK_SIZE, 2,
        (none : Option (List String)).getD [], none⟩ ∧
    "P" ∈ (dictGet (handle_handshake pm0 fm0 "P"
        [⟨some "h", some "f2", some 1, some 2, none, none⟩]).1.file_availability
        "h").getD [] :=
  handle_handshake_inserts_unvalidated pm0 fm0 "P" "h" "f2" 1 2 none none
    (by decide) (by decide)

/-! ### Claim C5 -/

/-- Claim C5 counterexample: `start_download` on an in-progress download
is not a no-op.  After chunk 0 of `h` has been written (`fmW0`), a
second `start_download` returns success but truncates the temp file
back to zeros and resets the downloaded chunk set from `.2 = {0}` to
`∅`, discarding the progress the claim says is left unchanged. -/
theorem start_download_not_idempotent_cex :
    (start_download fmW0 "h").2 = true ∧
    downloadedChunksOf fmW0 "h" = {0} ∧
    tempFileOf fmW0 "h" = [7] ∧
    downloadedChunksOf (start_download fmW0 "h").1 "h" = ∅ ∧
    tempFileOf (start_download fmW0 "h").1 "h" = [0] ∧
    (start_download fmW0 "h").1 ≠ fmW0 := by
  decide

/-- Claim C5 (amended): for any digest with registered metadata —
in-progress or not — `start_download` returns success and resets the
download state to a fresh entry: a zero-filled temp file of the file's
length and an empty chunk set.  A second call for an in-progress
download therefore succeeds but discards all recorded progress rather
than being a no-op. -/
theorem start_download_reinitializes (fm : FileManager) (fh : String)
    (md : FileEntry) (h : dictGet fm.file_metadata fh = some md) :
    (start_download fm fh).2 = true ∧
    dictGet (start_download fm fh).1.downloading_files fh =
      some ⟨md, writeAt [] (md.file_size - 1) [0],
        fm.download_dir ++ "/." ++ md.filename ++ ".part",
        fm.download_dir ++ "/" ++ md.filename, ∅, md.total_chunks⟩ := by
  unfold start_download
  rw [h]
  exact ⟨rfl, dictGet_dictSet_self ..⟩

/-- Witness for the amended C5: re-running `start_download` on `fmW0`
(which already holds progress for `h`) yields the fresh state. -/
theorem start_download_reinitializes_witness :
    (start_download fmW0 "h").2 = true ∧
    dictGet (start_download fmW0 "h").1.downloading_files "h" =
      some ⟨mdH, writeAt [] (mdH.file_size - 1) [0],
        fmW0.download_dir ++ "/." ++ mdH.filename ++ ".part",
        fmW0.download_dir ++ "/" ++ mdH.filename, ∅, mdH.total_chunks⟩ :=
  start_download_reinitializes fmW0 "h" mdH (by decide)

/-! ### Claim C6 -/

/-- Claim C6 counterexample: completion is decided by cardinality, not
by equality with the set of valid indices.  In `fm56` a single
out-of-range write at index 5 makes the chunk set `.2 = {5}`, whose size 1
equals `total_chunks = 1`, so `is_download_complete` answers true
although the set differs from `range 1` and chunk 0 was never
written. -/
theorem is_download_complete_card_cex :
    (is_download_complete (fun _ => "nope") fm56 "h").2 = true ∧
    downloadedChunksOf fm56 "h" = {5} ∧
    downloadTotalOf fm56 "h" = 1 ∧
    downloadedChunksOf fm56 "h" ≠ Finset.range (downloadTotalOf fm56 "h") ∧
    0 ∉ downloadedChunksOf fm56 "h" := by
  refine ⟨rfl, rfl, rfl, by decide, by decide⟩

/-- Claim C6 (amended): `is_download_complete` answers true exactly when
the cardinality of the chunk set equals `total_chunks` (and false with
no download state); only under the additional hypothesis that every
recorded index is in range — which `write_chunk` does not enforce —
does this coincide with the claimed equality with
`{0, …, total_chunks − 1}`.  A true answer does trigger finalization:
the returned state is `finalize_download`'s. -/
theorem is_download_complete_card_iff (Hf : List Nat → String)
    (fm : FileManager) (fh : String) (di : DownloadInfo)
    (hdi : dictGet fm.downloading_files fh = some di) :
    ((is_download_complete Hf fm fh).2 = true ↔
      di.downloaded_chunks.card = di.total_chunks) ∧
    (di.downloaded_chunks ⊆ Finset.range di.total_chunks →
      ((is_download_complete Hf fm fh).2 = true ↔
        di.downloaded_chunks = Finset.range di.total_chunks)) ∧
    (di.downloaded_chunks.card = di.total_chunks →
      (is_download_complete Hf fm fh).1 = (finalize_download Hf fm fh).1) := by
  have heq : is_download_complete Hf fm fh =
      if di.downloaded_chunks.card = di.total_chunks
      then ((finalize_download Hf fm fh).1, true) else (fm, false) := by
    unfold is_download_complete
    rw [hdi]
  rw [heq]
  by_cases hc : di.downloaded_chunks.card = di.total_chunks
  · rw [if_pos hc]
    refine ⟨by simp [hc], fun hsub => ?_, fun _ => rfl⟩
    constructor
    · intro _
      apply Finset.eq_of_subset_of_card_le hsub
      rw [Finset.card_range]
      exact hc.ge
    · intro _
      rfl
  · rw [if_neg hc]
    refine ⟨by simp [hc], fun hsub => ?_, fun hcc => absurd hcc hc⟩
    constructor
    · intro hfalse
      simp at hfalse
    · intro heq
      exact absurd (by rw [heq, Finset.card_range]) hc

/-- Witness for the amended C6 at the in-progress empty state (`fmHd`,
chunk set `∅`, one chunk expected). -/
theorem is_download_complete_card_iff_witness :
    (((is_download_complete (fun _ => "h") fmHd "h").2 = true ↔
        diH0.downloaded_chunks.card = diH0.total_chunks) ∧
      (diH0.downloaded_chunks ⊆ Finset.range diH0.total_chunks →
        ((is_download_complete (fun _ => "h") fmHd "h").2 = true ↔
          diH0.downloaded_chunks = Finset.range diH0.total_chunks)) ∧
      (diH0.downloaded_chunks.card = diH0.total_chunks →
        (is_download_complete (fun _ => "h") fmHd "h").1 =
          (finalize_download (fun _ => "h") fmHd "h").1)) :=
  is_download_complete_card_iff (fun _ => "h") fmHd "h" diH0 (by decide)

/-! ### Claim C7 -/

/-- Claim C7 counterexample: the in-progress list is not ascending.
`list(all_chunks - downloaded_chunks)` follows CPython's hash-table
iteration: a two-element result set sits in a fresh 8-slot table, and
with chunks 2 and 97 missing from a 100-chunk file the slots are
`97 % 8 = 1` and `2 % 8 = 2`, so the program yields `[97, 2]` —
descending. -/
theorem get_missing_chunks_order_cex :
    get_missing_chunks fmC7 "H" = [97, 2] ∧
    ¬ ∀ (fm : FileManager) (fh : String) (di : DownloadInfo),
        dictGet fm.downloading_files fh = some di →
        List.Sorted (· ≤ ·) (get_missing_chunks fm fh) := by
  have h : get_missing_chunks fmC7 "H" = [97, 2] := by decide
  refine ⟨h, fun hclaim => ?_⟩
  have hs := hclaim fmC7 "H" di100 (by decide)
  rw [h] at hs
  exact absurd hs (by decide)

/-- Claim C7 (amended): `get_missing_chunks` returns, for a download in
progress, a duplicate-free list containing exactly the complement of the
chunk set in `{0, …, total_chunks − 1}`, in CPython's set-iteration
order (hash-slot order, index mod table size) rather than ascending
order; for known-but-unstarted metadata the full ascending range; and
for an unknown digest the empty list. -/
theorem get_missing_chunks_spec (fm : FileManager) (fh : String)
    (i : Nat) :
    (∀ di, dictGet fm.downloading_files fh = some di →
        (i ∈ get_missing_chunks fm fh ↔
          i < di.total_chunks ∧ i ∉ di.downloaded_chunks) ∧
        (get_missing_chunks fm fh).Nodup) ∧
    (∀ md, dictGet fm.downloading_files fh = none →
        dictGet fm.file_metadata fh = some md →
        get_missing_chunks fm fh = List.range md.total_chunks) ∧
    (dictGet fm.downloading_files fh = none →
        dictGet fm.file_metadata fh = none →
        get_missing_chunks fm fh = []) := by
  refine ⟨?_, ?_, ?_⟩
  · intro di hdi
    unfold get_missing_chunks pySetList
    rw [hdi]
    constructor
    · rw [List.Perm.mem_iff (List.perm_insertionSort _ _)]
      simp [List.mem_filter, List.mem_range]
    · exact (List.Perm.nodup_iff (List.perm_insertionSort _ _)).mpr
        (List.Nodup.filter _ (List.nodup_range _))
  · intro md h1 h2
    unfold get_missing_chunks
    rw [h1, h2]
  · intro h1 h2
    unfold get_missing_chunks
    rw [h1, h2]

/-- Witness for the amended C7 covering all three branches: in-progress
(`fmHd`), known but unstarted (`fmH`), unknown digest (`fm0`). -/
theorem get_missing_chunks_spec_witness :
    ((0 ∈ get_missing_chunks fmHd "h" ↔
        0 < diH0.total_chunks ∧ 0 ∉ diH0.downloaded_chunks) ∧
      (get_missing_chunks fmHd "h").Nodup) ∧
    get_missing_chunks fmH "h" = List.range mdH.total_chunks ∧
    get_missing_chunks fm0 "h" = [] :=
  ⟨(get_missing_chunks_spec fmHd "h" 0).1 diH0 (by decide),
   (get_missing_chunks_spec fmH "h" 0).2.1 mdH (by decide) (by decide),
   (get_missing_chunks_spec fm0 "h" 0).2.2 (by decide) (by decide)⟩

/-! ### Claim C8 -/

/-- `request_chunk` written out: count incremented, message sent while
the new count stays within the cap. -/
theorem request_chunk_eq (s : Session) (fh : String) (idx : Nat) :
    request_chunk s fh idx =
      (⟨dictSet s.retry_counts (fh, idx)
          ((dictGet s.retry_counts (fh, idx)).getD 0 + 1)⟩,
        decide ((dictGet s.retry_counts (fh, idx)).getD 0 + 1
          ≤ MAX_CHUNK_RETRIES)) := rfl

/-- Unfolding of `repeatReq` at a successor count. -/
theorem repeatReq_succ (fh : String) (idx n : Nat) (s : Session) :
    repeatReq fh idx (n + 1) s =
      ((repeatReq fh idx n (request_chunk s fh idx).1).1,
        (if (request_chunk s fh idx).2 then 1 else 0) +
          (repeatReq fh idx n (request_chunk s fh idx).1).2) := rfl

/-- How many of `n` successive `request_chunk` calls for one pair on one
session actually send, starting from an arbitrary retry count. -/
theorem repeatReq_sends (fh : String) (idx : Nat) :
    ∀ (n : Nat) (s : Session),
      (repeatReq fh idx n s).2 =
        min n (MAX_CHUNK_RETRIES -
          (dictGet s.retry_counts (fh, idx)).getD 0) := by
  intro n
  induction n with
  | zero =>
      intro s
      simp [repeatReq]
  | succ n ih =>
      intro s
      rw [repeatReq_succ, ih, request_chunk_eq]
      show (if decide ((dictGet s.retry_counts (fh, idx)).getD 0 + 1
              ≤ MAX_CHUNK_RETRIES) = true then 1 else 0) +
          min n (MAX_CHUNK_RETRIES -
            (dictGet (dictSet s.retry_counts (fh, idx)
              ((dictGet s.retry_counts (fh, idx)).getD 0 + 1))
              (fh, idx)).getD 0)
        = min (n + 1) (MAX_CHUNK_RETRIES -
            (dictGet s.retry_counts (fh, idx)).getD 0)
      rw [dictGet_dictSet_self, Option.getD_some]
      unfold MAX_CHUNK_RETRIES
      by_cases hle : (dictGet s.retry_counts (fh, idx)).getD 0 + 1 ≤ 5
      · rw [decide_eq_true hle, if_pos rfl]
        omega
      · rw [decide_eq_false hle, if_neg Bool.false_ne_true]
        omega

/-- On `fmHd` (one-chunk download, nothing written) the missing list is
the single chunk `[0]`. -/
theorem get_missing_fmHd : get_missing_chunks fmHd "h" = [0] := by
  decide

/-- The poll over `fmHd`/`pmC8` evaluated: the silenced call is counted
(`requested_count = 1`), nothing is sent, the loop re-polls. -/
theorem download_step_pmC8 :
    download_chunks_step fmHd pmC8 "h" =
      (⟨[("P", ⟨[(("h", 0), 6)]⟩)], [("h", ["P"])], [], [("P", ["h"])]⟩,
        1, 0, PollResult.wait500) := by
  unfold download_chunks_step download_poll_requests
  rw [get_missing_fmHd]
  decide

/-- Claim C8 counterexample.  The five-call cap is kept per protocol
instance, not across sessions: five calls on one fresh session and one
on another, all for the same `(digest, index)` pair, put six
`chunk_request` messages on the wire.  And the scheduler never surfaces
a stalled outcome: with every source for the one missing chunk
exhausted (`pmC8`), the poll sends nothing (`sent = 0`) yet still counts
the silenced call (`requested_count = 1`) and comes back as the 500 ms
re-poll, looping forever instead of reporting a stall. -/
theorem chunk_retry_cap_cex :
    ((repeatReq "h" 0 5 ⟨[]⟩).2 + (repeatReq "h" 0 1 ⟨[]⟩).2 = 6 ∧
      ¬ ((repeatReq "h" 0 5 ⟨[]⟩).2 + (repeatReq "h" 0 1 ⟨[]⟩).2
          ≤ MAX_CHUNK_RETRIES)) ∧
    (download_chunks_step fmHd pmC8 "h").2.2.2 = PollResult.wait500 ∧
    (download_chunks_step fmHd pmC8 "h").2.2.1 = 0 ∧
    (download_chunks_step fmHd pmC8 "h").2.1 = 1 := by
  refine ⟨by decide, ?_, ?_, ?_⟩
  · rw [download_step_pmC8]
  · rw [download_step_pmC8]
  · rw [download_step_pmC8]

/-- Claim C8 (amended): the retry cap is per session — once a session's
count for a pair reaches `MAX_CHUNK_RETRIES`, that session sends no
further request for it, and `n` calls on a fresh session send
`min n 5` messages — but it is not enforced across sessions (see the
counterexample), and the download loop's only exit is an empty missing
list: there is no stalled outcome, the non-complete results being the
two sleeps. -/
theorem chunk_retry_per_session_cap :
    (∀ (s : Session) (fh : String) (idx : Nat),
        MAX_CHUNK_RETRIES ≤ (dictGet s.retry_counts (fh, idx)).getD 0 →
        (request_chunk s fh idx).2 = false) ∧
    (∀ (fh : String) (idx n : Nat),
        (repeatReq fh idx n ⟨[]⟩).2 = min n MAX_CHUNK_RETRIES) ∧
    (∀ (fm : FileManager) (pm : PeerManager) (fh : String),
        ((download_chunks_step fm pm fh).2.2.2 = PollResult.complete ↔
          get_missing_chunks fm fh = [])) := by
  refine ⟨?_, ?_, ?_⟩
  · intro s fh idx hge
    rw [request_chunk_eq]
    show decide ((dictGet s.retry_counts (fh, idx)).getD 0 + 1
        ≤ MAX_CHUNK_RETRIES) = false
    unfold MAX_CHUNK_RETRIES at hge ⊢
    exact decide_eq_false (by omega)
  · intro fh idx n
    rw [repeatReq_sends]
    rfl
  · intro fm pm fh
    unfold download_chunks_step
    by_cases hm : (get_missing_chunks fm fh).isEmpty
    · rw [if_pos hm]
      simp [List.isEmpty_iff.mp hm]
    · rw [if_neg hm]
      have hne : get_missing_chunks fm fh ≠ [] := by
        intro h0
        rw [h0] at hm
        exact hm rfl
      show (if (download_poll_requests fm pm fh).2.1 = 0
          then PollResult.wait5 else PollResult.wait500)
          = PollResult.complete ↔ get_missing_chunks fm fh = []
      by_cases hr : (download_poll_requests fm pm fh).2.1 = 0
      · simp [hr, hne]
      · simp [hr, hne]

/-- Witness for the amended C8: the exhausted session `sE` sends
nothing; seven fresh calls send five; the loop outcome on the
in-progress `fmHd` with no peers is not `complete`. -/
theorem chunk_retry_per_session_cap_witness :
    (request_chunk sE "h" 0).2 = false ∧
    (repeatReq "h" 0 7 ⟨[]⟩).2 = min 7 MAX_CHUNK_RETRIES ∧
    ((download_chunks_step fmHd pm0 "h").2.2.2 = PollResult.complete ↔
      get_missing_chunks fmHd "h" = []) :=
  ⟨chunk_retry_per_session_cap.1 sE "h" 0 (by decide),
   chunk_retry_per_session_cap.2.1 "h" 0 7,
   chunk_retry_per_session_cap.2.2 fmHd pm0 "h"⟩

/-! ### Claim C9 -/

/-- Claim C9 counterexample: if remote records were never listed among
the node's shared files, `add_remote_file` could not change
`get_available_files` (the list `send_handshake` advertises and
`list_shared_files` prints).  It does: a manifest announced by a peer
for a fresh digest appears in the list immediately, before any download,
because `add_remote_file` inserts straight into `shared_files`. -/
theorem remote_file_advertised_cex :
    ¬ ∀ (fm : FileManager) (m : FileMetadataMsg),
        get_available_files (add_remote_file fm m) =
          get_available_files fm := by
  intro hclaim
  have h := hclaim fm0 ⟨"h", "f", 1, 1, CHUNK_SIZE, ["p"]⟩
  exact absurd h (by decide)

/-- Claim C9 (amended): `get_available_files` lists every `shared_files`
entry, and `add_remote_file` inserts a remote manifest — a record with
no local path — straight into `shared_files`; hence a remote file is
advertised in the outgoing handshake and reported as shared as soon as
it is announced, not only after its download completes and
`finalize_download` promotes it by filling in `filepath`. -/
theorem add_remote_file_listed (fm : FileManager) (m : FileMetadataMsg)
    (hfh : m.file_hash ≠ "")
    (hnew : dictGet fm.shared_files m.file_hash = none) :
    dictGet (add_remote_file fm m).shared_files m.file_hash =
      some ⟨m.file_hash, m.filename, m.file_size, m.chunk_size,
        m.total_chunks, m.piece_hashes, none⟩ ∧
    (⟨m.file_hash, m.filename, m.file_size, m.total_chunks⟩ :
        AvailableFile) ∈ get_available_files (add_remote_file fm m) := by
  rw [add_remote_file_insert fm m hfh hnew]
  constructor
  · exact dictGet_dictSet_self ..
  · unfold get_available_files
    refine List.mem_map.mpr ⟨(m.file_hash, ⟨m.file_hash, m.filename,
      m.file_size, m.chunk_size, m.total_chunks, m.piece_hashes, none⟩),
      ?_, rfl⟩
    exact mem_dictSet_self ..

/-- Witness for the amended C9 at a concrete announcement. -/
theorem add_remote_file_listed_witness :
    dictGet (add_remote_file fm0
        ⟨"h", "f", 1, 1, CHUNK_SIZE, ["p"]⟩).shared_files "h" =
      some ⟨"h", "f", 1, CHUNK_SIZE, 1, ["p"], none⟩ ∧
    (⟨"h", "f", 1, 1⟩ : AvailableFile) ∈
      get_available_files (add_remote_file fm0
        ⟨"h", "f", 1, 1, CHUNK_SIZE, ["p"]⟩) :=
  add_remote_file_listed fm0 ⟨"h", "f", 1, 1, CHUNK_SIZE, ["p"]⟩
    (by decide) (by decide)

/-! ### Claim C10 -/

/-- Claim C10 (implicit, confirmed): `write_chunk` bounds-checks
nothing — for any in-progress download and any index, indices
`≥ total_chunks` included, the bytes land at `index * CHUNK_SIZE` in the
temp file and the index joins the chunk set; and since completion
compares only cardinality, the concrete out-of-range run `fm56` (one
write at index 5 of a one-chunk file) passes `is_download_complete` and
triggers finalization while valid index 0 was never written. -/
theorem write_chunk_unbounded_index :
    (∀ (fm : FileManager) (fh : String) (di : DownloadInfo) (idx : Nat)
        (data : List Nat),
        dictGet fm.downloading_files fh = some di →
        (write_chunk fm fh idx data).2 = true ∧
        dictGet (write_chunk fm fh idx data).1.downloading_files fh =
          some { di with
                   temp_file := writeAt di.temp_file (idx * CHUNK_SIZE) data
                   downloaded_chunks := insert idx di.downloaded_chunks }) ∧
    ((is_download_complete (fun _ => "x") fm56 "h").2 = true ∧
      0 ∉ downloadedChunksOf fm56 "h" ∧
      downloadTotalOf fm56 "h" = 1) := by
  constructor
  · intro fm fh di idx data hdi
    unfold write_chunk
    rw [hdi]
    unfold writeInto
    exact ⟨rfl, dictGet_dictSet_self ..⟩
  · exact ⟨rfl, by decide, rfl⟩

/-- Witness for C10: the out-of-range write at index 5 itself. -/
theorem write_chunk_unbounded_index_witness :
    (write_chunk fmHd "h" 5 [9]).2 = true ∧
    dictGet (write_chunk fmHd "h" 5 [9]).1.downloading_files "h" =
      some { diH0 with
               temp_file := writeAt diH0.temp_file (5 * CHUNK_SIZE) [9]
               downloaded_chunks := insert 5 diH0.downloaded_chunks } :=
  write_chunk_unbounded_index.1 fmHd "h" diH0 5 [9] (by decide)

end P2P
